import Mathlib

/-!
Shallow embedding of the wcharczuk/health host-availability monitor.

Conventions used throughout:
- Go `time.Duration` and `time.Time` are int64 nanosecond counts, modelled as `ℤ`.
- Go `int64` division truncates toward zero, modelled by `Int.tdiv`; a Go integer
  division by zero is a runtime panic and is modelled explicitly at call sites
  (the function returns `none` in that case).
- Go `float64` arithmetic is modelled over `ℚ`; a non-finite float result
  (`0.0/0.0` = NaN, `x/0.0` = Inf) is modelled as `none`.
- Go slice indexing is checked: `List.get?` returning `none` models the Go
  index-out-of-range panic.
- The rolling window (`collections.RingBuffer` / `DurationQueue`) is a FIFO
  queue modelled as a `List` whose head is the oldest element: `Enqueue`/`Push`
  appends at the back, `Dequeue`/`Pop` removes the head, iteration (`Each`,
  `ToArray`) runs oldest to newest.
-/

/-- Go time.Duration: int64 nanoseconds. -/
abbrev Duration := Int

/-- Embedding of `RoundToInt`/`Round` (src/unnamed/part_014, and the identical
`float64ToInt`/`round` of src/lib/duration_queue.go): strip the sign, split the
integer and fractional parts (`math.Modf`), round up when the fractional part is
at least one half and down otherwise, then restore the sign. The final Go
`int(...)` conversion of the integral float is the identity on its value. -/
def RoundToInt (q : ℚ) : ℤ :=
  if q < 0 then -(if 1/2 ≤ Int.fract (-q) then ⌈-q⌉ else ⌊-q⌋)
  else (if 1/2 ≤ Int.fract q then ⌈q⌉ else ⌊q⌋)

/-- Go conversion float64 → int64 (used as `time.Duration(int64(x))` and in the
exactness test `index == float64(int64(index))`): truncation toward zero. -/
def truncToInt (q : ℚ) : ℤ := if q < 0 then -⌊-q⌋ else ⌊q⌋

/-- Embedding of `AverageDuration` (src/unnamed/part_014): sum of the durations
divided by their count using Go integer division. -/
def AverageDuration (ds : List Duration) : Duration :=
  Int.tdiv ds.sum (ds.length : ℤ)

/-- Embedding of `mean` (src/lib/duration_queue.go): float64 mean of a list. -/
def meanFloat (l : List ℚ) : ℚ := l.sum / (l.length : ℚ)

/-- Embedding of the `Host` struct (src/host.go): the fields the specified core
manipulates. `downAt` is nil exactly while the host is up; `downtime` is the
cumulative completed downtime; `stats` is the rolling latency window with
capacity `maxStats`. The URL, timeout, transport and error-queue fields take no
part in the claims and are omitted. -/
structure Host where
  downAt : Option ℤ
  downtime : Duration
  maxStats : ℤ
  stats : List Duration
  deriving DecidableEq

/-- Embedding of `Host.IsUp` (src/host.go): up iff `downAt` is nil. -/
def Host.IsUp (h : Host) : Bool := h.downAt = none

/-- Embedding of `Host.SetUp` (src/host.go): if the host was down, add
`now - downAt` to the cumulative downtime; in all cases clear `downAt`. -/
def Host.SetUp (h : Host) (now : ℤ) : Host :=
  { h with
    downtime :=
      match h.downAt with
      | some d => h.downtime + (now - d)
      | none => h.downtime
    downAt := none }

/-- Embedding of `Host.SetDown` (src/host.go): record the down timestamp only
if the host is not already down. -/
def Host.SetDown (h : Host) (t : ℤ) : Host :=
  if h.downAt = none then { h with downAt := some t } else h

/-- Window update step of `Host.AddTiming` (src/host.go): if the window is at
(or past) capacity, dequeue the oldest sample, then enqueue the new one. A
`Dequeue` on an empty ring buffer is a no-op returning nil, which
`List.tail [] = []` matches. -/
def recordStep (maxStats : ℤ) (stats : List Duration) (elapsed : Duration) : List Duration :=
  (if (stats.length : ℤ) ≥ maxStats then stats.tail else stats) ++ [elapsed]

/-- Embedding of `Host.AddTiming` (src/host.go): apply `recordStep` to the
rolling window with the stored capacity. -/
def Host.AddTiming (h : Host) (elapsed : Duration) : Host :=
  { h with stats := recordStep h.maxStats h.stats elapsed }

/-- Embedding of `Host.TotalDowntime` (src/host.go): cumulative downtime plus
the open-ended current down window. -/
def Host.TotalDowntime (h : Host) (now : ℤ) : Duration :=
  h.downtime + match h.downAt with | some d => now - d | none => 0

/-- Embedding of `NewHost` (src/host.go): the only error path is `url.Parse`,
an external collaborator modelled by the `urlOk` flag. `maxStats` is stored
unchecked; the window starts empty, `downAt` nil, downtime zero. -/
def NewHost (urlOk : Bool) (maxStats : ℤ) : Option Host :=
  if urlOk then some { downAt := none, downtime := 0, maxStats := maxStats, stats := [] }
  else none

/-- Embedding of `NewChecksFromConfig` (src/lib/checks.go): build a host per
configured target with the shared `maxStats`, failing iff some `NewHost` call
fails (i.e. iff some URL fails to parse). -/
def NewChecksFromConfig (hostsOk : List Bool) (maxStats : ℤ) : Option (List Host) :=
  hostsOk.foldr
    (fun ok acc =>
      match NewHost ok maxStats, acc with
      | some h, some hs => some (h :: hs)
      | _, _ => none)
    (some [])

/-- Embedding of `Host.Mean` (src/host.go): sum the retained samples and divide
by the window length with no emptiness guard; `none` models the Go
integer-divide-by-zero panic on an empty window. -/
def meanOf (stats : List Duration) : Option Duration :=
  if stats.length = 0 then none else some (Int.tdiv stats.sum (stats.length : ℤ))

/-- Method form of `meanOf` on the Host struct. -/
def Host.Mean (h : Host) : Option Duration := meanOf h.stats

/-- Embedding of `Host.Percentile` (src/host.go): copy the retained samples,
sort ascending, compute `index = (p/100)*len`; if `index` equals its float64
int64-truncation it is an exact integer: round it, guard `i < 1`, and average
`values[i-1]` and `values[i]`; otherwise round it, guard `i < 1`, and take
`values[i-1]`. `none` models an index-out-of-range panic. -/
def percentileOf (stats : List Duration) (p : ℚ) : Option Duration :=
  let values := List.insertionSort (· ≤ ·) stats
  let index : ℚ := p / 100 * (values.length : ℚ)
  if index = ((truncToInt index : ℤ) : ℚ) then
    let i := RoundToInt index
    if i < 1 then some 0
    else
      match values.get? (i - 1).toNat, values.get? i.toNat with
      | some a, some b => some (AverageDuration [a, b])
      | _, _ => none
  else
    let i := RoundToInt index
    if i < 1 then some 0
    else
      match values.get? (i - 1).toNat with
      | some a => some a
      | none => none

/-- Method form of `percentileOf` on the Host struct. -/
def Host.Percentile (h : Host) (p : ℚ) : Option Duration := percentileOf h.stats p

/-- Embedding of `DurationQueue.Mean` (src/lib/duration_queue.go): zero on an
empty queue (nil Head), otherwise the sum divided by the length. -/
def DurationQueue.Mean (dq : List Duration) : Duration :=
  if dq = [] then 0 else Int.tdiv dq.sum (dq.length : ℤ)

/-- Embedding of `DurationQueue.Percentile` (src/lib/duration_queue.go): same
index arithmetic as `Host.Percentile`, but with a nil-Head guard returning zero
and with the exact-integer branch averaging through float64 (`mean` of the two
values, then truncation back to int64 nanoseconds). -/
def DurationQueue.Percentile (dq : List Duration) (p : ℚ) : Option Duration :=
  if dq = [] then some 0
  else
    let values := List.insertionSort (· ≤ ·) dq
    let index : ℚ := p / 100 * (values.length : ℚ)
    if index = ((truncToInt index : ℤ) : ℚ) then
      let i := RoundToInt index
      if i < 1 then some 0
      else
        match values.get? (i - 1).toNat, values.get? i.toNat with
        | some a, some b => some (truncToInt (meanFloat [(a : ℚ), (b : ℚ)]))
        | _, _ => none
    else
      let i := RoundToInt index
      if i < 1 then some 0
      else
        match values.get? (i - 1).toNat with
        | some a => some a
        | none => none

/-- Embedding of the outcome classification inside `Host.Ping` (src/host.go
lines 131-142): a transport error is returned as-is; with a response in hand, a
status code strictly above `http.StatusOK` (200) yields the non-200 error; a
nil error is returned only for status codes at most 200. `true` means Ping
returns a non-nil error (a Down transition for the caller). -/
def pingReturnsError (transportErr : Bool) (statusCode : ℤ) : Bool :=
  if transportErr then true
  else if statusCode > 200 then true
  else false

/-- Outcome of one probe as consumed by `doPing`: the elapsed time and whether
`Ping` returned an error. -/
structure ProbeResult where
  elapsed : Duration
  failed : Bool

/-- Embedding of `doPing` (src/lib/checks.go): on error `SetDown(now)`,
otherwise `SetUp`; in either case `AddTiming(elapsed)` afterwards. -/
def doPing (now : ℤ) (r : ProbeResult) (h : Host) : Host :=
  (if r.failed then h.SetDown now else h.SetUp now).AddTiming r.elapsed

/-- Embedding of the legacy per-host record `hostData` (src/health.go): up
flag, down timestamp, rolling stats, last error presence, ping count. -/
structure HostData where
  isUp : Bool
  downAt : Option ℤ
  stats : List Duration
  hasErr : Bool
  pingCount : ℤ
  deriving DecidableEq

/-- Legacy window bound `MAX_STATS` (src/health.go). -/
def MAXSTATS : ℕ := 100

/-- Embedding of `setStatus` (src/health.go): on up clear `DownAt`; on down set
`DownAt` to now only if not already set. -/
def setStatus (d : HostData) (now : ℤ) (up : Bool) : HostData :=
  if up then { d with isUp := true, downAt := none }
  else
    { d with isUp := false,
             downAt := match d.downAt with | none => some now | some t => some t }

/-- Embedding of `pushStats` (src/health.go): push the sample, then pop the
oldest if the length exceeds `MAX_STATS`. -/
def pushStats (d : HostData) (elapsed : Duration) : HostData :=
  let s := d.stats ++ [elapsed]
  { d with stats := if s.length > MAXSTATS then s.tail else s }

/-- Embedding of `pushError` (src/health.go): record the last error. -/
def pushError (d : HostData) : HostData := { d with hasErr := true }

/-- Embedding of the probe-outcome handling block of `pingServer`
(src/health.go lines 197-209): increment the ping count; on a transport error,
mark down and record the error; on a non-200 status, mark down and record the
error; only on a 200 response push the elapsed time into the stats window and
mark up. -/
def pingServerOutcome (d : HostData) (now : ℤ) (elapsed : Duration)
    (resErr : Bool) (statusCode : ℤ) : HostData :=
  let d1 := { d with pingCount := d.pingCount + 1 }
  if resErr then pushError (setStatus d1 now false)
  else if statusCode ≠ 200 then pushError (setStatus d1 now false)
  else setStatus (pushStats d1 elapsed) now true

/-- Nanoseconds per millisecond (`time.Millisecond`). -/
def msPerNs : ℤ := 1000000

/-- Embedding of the uptime fraction computed in `Host.WriteStatus`
(src/host.go lines 188-193): 1.0 unless `TotalDowntime() > 0`; otherwise both
the total elapsed time and the downtime are truncated to milliseconds
(Go duration division) and the fraction `(total - down) / total` is formed in
float64 with no clamping. `none` models the non-finite float produced when the
truncated total is zero (0.0/0.0 = NaN). -/
def uptimePCT (totalNs downNs : ℤ) : Option ℚ :=
  if downNs > 0 then
    let totalTime := Int.tdiv totalNs msPerNs
    let downTime := Int.tdiv downNs msPerNs
    if totalTime = 0 then none
    else some (((totalTime - downTime : ℤ) : ℚ) / ((totalTime : ℤ) : ℚ))
  else some 1

/-- One scheduler round of `Checks.Start` (src/lib/checks.go lines 57-77) as a
transition system. `done i` is true once host i finished `doPing` and its
deferred `wg.Done()` ran; `cbRan` is true once the interval callback was
invoked. The WaitGroup counter after `wg.Add(len(hosts))` and the completed
`wg.Done()` calls is the number of unfinished hosts. -/
structure RoundState where
  done : List Bool
  cbRan : Bool
  deriving DecidableEq

/-- The WaitGroup counter: hosts whose probe goroutine has not yet finished. -/
def wgCounter (s : RoundState) : ℕ := s.done.count false

/-- Round start: `wg.Add(n)` with no probe finished and the callback not run. -/
def initRound (n : ℕ) : RoundState := ⟨List.replicate n false, false⟩

/-- Interleaving steps of one round: any unfinished host may complete its probe
goroutine (`doPing` then the deferred `wg.Done()`), regardless of whether its
probe succeeded or failed and regardless of every other host; the callback step
is `wg.Wait()` returning followed by `intervalAction`, which the WaitGroup
permits only once the counter is zero, and the loop body runs it once. -/
inductive RoundStep : RoundState → RoundState → Prop
  | probe (s : RoundState) (i : ℕ) (hi : i < s.done.length)
      (hpending : s.done.get ⟨i, hi⟩ = false) :
      RoundStep s ⟨s.done.set i true, s.cbRan⟩
  | callback (s : RoundState) (hwait : wgCounter s = 0) (honce : s.cbRan = false) :
      RoundStep s ⟨s.done, true⟩

/-- States reachable within one round from the round start. -/
inductive ReachableRound (n : ℕ) : RoundState → Prop
  | init : ReachableRound n (initRound n)
  | step {s t : RoundState} : ReachableRound n s → RoundStep s t → ReachableRound n t

/-! ## Helper lemmas -/

theorem truncToInt_intCast (k : ℤ) : truncToInt (k : ℚ) = k := by
  unfold truncToInt
  rcases lt_or_le (k : ℚ) 0 with h | h
  · rw [if_pos h, ← Int.cast_neg, Int.floor_intCast, neg_neg]
  · rw [if_neg (not_lt.mpr h), Int.floor_intCast]

theorem RoundToInt_intCast (k : ℤ) : RoundToInt (k : ℚ) = k := by
  unfold RoundToInt
  rcases lt_or_le (k : ℚ) 0 with h | h
  · rw [if_pos h, ← Int.cast_neg, Int.fract_intCast,
      if_neg (by norm_num : ¬ (1/2 : ℚ) ≤ 0), Int.floor_intCast, neg_neg]
  · rw [if_neg (not_lt.mpr h), Int.fract_intCast,
      if_neg (by norm_num : ¬ (1/2 : ℚ) ≤ 0), Int.floor_intCast]

theorem RoundToInt_nonneg (q : ℚ) (hq : 0 ≤ q) : RoundToInt q = ⌊q + 1/2⌋ := by
  have hfr : Int.fract q = q - ⌊q⌋ := rfl
  have hlt : q < (⌊q⌋ : ℚ) + 1 := Int.lt_floor_add_one q
  have hle : ((⌊q⌋ : ℤ) : ℚ) ≤ q := Int.floor_le q
  unfold RoundToInt
  rw [if_neg (not_lt.mpr hq)]
  by_cases hf : (1/2 : ℚ) ≤ Int.fract q
  · rw [if_pos hf]
    have h1 : ⌊q + 1/2⌋ = ⌊q⌋ + 1 := by
      rw [Int.floor_eq_iff]
      constructor
      · push_cast
        linarith [hf, hfr]
      · push_cast
        linarith
    have h2 : ⌈q⌉ = ⌊q⌋ + 1 := by
      rw [Int.ceil_eq_iff]
      constructor
      · push_cast
        linarith [hf, hfr]
      · push_cast
        linarith
    rw [h1, h2]
  · rw [if_neg hf]
    push_neg at hf
    symm
    rw [Int.floor_eq_iff]
    constructor
    · linarith
    · linarith [hf, hfr]

/-! ## Claim C3: SetDown idempotence, SetUp accumulation -/

/-- Claim C3: once a host is down (`downAt` set), any further `SetDown`
leaves the whole host state, in particular the down timestamp and the
cumulative downtime, unchanged; `SetDown` never changes the cumulative
downtime in any state; and the Down-to-Up transition (`SetUp` while down) is
the only transition that adds `now - downAt` to the cumulative downtime before
clearing `downAt` (`SetUp` while up leaves the downtime unchanged). -/
theorem SetDown_idempotent_SetUp_accumulates (h : Host) (d t now : ℤ)
    (hdown : h.downAt = some d) :
    h.SetDown t = h ∧
    (h.SetUp now).downtime = h.downtime + (now - d) ∧
    (h.SetUp now).downAt = none ∧
    (∀ g : Host, (g.SetDown t).downtime = g.downtime) ∧
    (∀ g : Host, g.downAt = none → (g.SetUp now).downtime = g.downtime) := by
  refine ⟨?_, ?_, ?_, ?_, ?_⟩
  · unfold Host.SetDown
    rw [hdown]
    simp
  · unfold Host.SetUp
    rw [hdown]
  · rfl
  · intro g
    unfold Host.SetDown
    by_cases hg : g.downAt = none
    · rw [if_pos hg]
    · rw [if_neg hg]
  · intro g hg
    unfold Host.SetUp
    rw [hg]

/-- Witness for C3 at a concrete down host: a second `SetDown` is the identity
and `SetUp` adds exactly the length of the open down window. -/
theorem SetDown_idempotent_SetUp_accumulates_witness :
    Host.SetDown ⟨some 2, 7, 5, []⟩ 11 = ⟨some 2, 7, 5, []⟩ ∧
    (Host.SetUp ⟨some 2, 7, 5, []⟩ 9).downtime = 7 + (9 - 2) := by
  have H := SetDown_idempotent_SetUp_accumulates ⟨some 2, 7, 5, []⟩ 2 11 9 rfl
  exact ⟨H.1, H.2.1⟩

/-! ## Claim C2: rolling-window invariant -/

theorem foldl_AddTiming_stats (h : Host) (samples : List Duration) :
    (samples.foldl Host.AddTiming h).stats =
      samples.foldl (recordStep h.maxStats) h.stats := by
  induction samples generalizing h with
  | nil => rfl
  | cons x xs ih =>
    show (xs.foldl Host.AddTiming (h.AddTiming x)).stats = _
    rw [ih (h.AddTiming x)]
    rfl

theorem recordFold_drop (N : ℤ) (hN : 1 ≤ N) (samples : List Duration) :
    samples.foldl (recordStep N) [] =
      samples.drop (samples.length - N.toNat) := by
  induction samples using List.reverseRecOn with
  | nil => simp
  | append_singleton s x ih =>
    rw [List.foldl_append, ih]
    show recordStep N (s.drop (s.length - N.toNat)) x = _
    unfold recordStep
    by_cases hk : N.toNat ≤ s.length
    · have hcond : ((s.drop (s.length - N.toNat)).length : ℤ) ≥ N := by
        rw [List.length_drop]
        omega
      have harith : s.length - N.toNat + 1 = s.length + 1 - N.toNat := by omega
      rw [if_pos hcond, List.tail_drop, harith]
      have hlen : (s ++ [x]).length = s.length + 1 := by simp
      rw [hlen, List.drop_append_of_le_length (by omega : s.length + 1 - N.toNat ≤ s.length)]
    · have hcond : ¬ ((s.drop (s.length - N.toNat)).length : ℤ) ≥ N := by
        rw [List.length_drop]
        omega
      have h1 : s.length - N.toNat = 0 := by omega
      have h2 : (s ++ [x]).length - N.toNat = 0 := by simp; omega
      rw [if_neg hcond, h1, h2, List.drop_zero, List.drop_zero]

/-- Claim C2: starting from a freshly created host with window capacity
`N ≥ 1`, after any sequence of `AddTiming` calls the rolling window holds
exactly the most recent `min N k` of the `k` recorded samples, in insertion
order (oldest evicted first, strict FIFO), and in particular its length is
`min N k`. -/
theorem AddTiming_window_invariant (N : ℤ) (hN : 1 ≤ N)
    (samples : List Duration) (h : Host)
    (hmax : h.maxStats = N) (hinit : h.stats = []) :
    (samples.foldl Host.AddTiming h).stats =
      samples.drop (samples.length - N.toNat) ∧
    (samples.foldl Host.AddTiming h).stats.length = min N.toNat samples.length := by
  have hs : (samples.foldl Host.AddTiming h).stats = samples.foldl (recordStep N) [] := by
    rw [foldl_AddTiming_stats, hmax, hinit]
  rw [hs, recordFold_drop N hN samples]
  refine ⟨rfl, ?_⟩
  rw [List.length_drop]
  omega

/-- Witness for C2: capacity 2, three samples; the window retains the last two
samples and has length `min 2 3 = 2`. -/
theorem AddTiming_window_invariant_witness :
    (List.foldl Host.AddTiming ⟨none, 0, 2, []⟩ [10, 20, 30]).stats =
      List.drop (([10, 20, 30] : List Duration).length - (2 : ℤ).toNat) [10, 20, 30] ∧
    (List.foldl Host.AddTiming ⟨none, 0, 2, []⟩ [10, 20, 30]).stats.length =
      min (2 : ℤ).toNat ([10, 20, 30] : List Duration).length :=
  AddTiming_window_invariant 2 (by decide) [10, 20, 30] ⟨none, 0, 2, []⟩ rfl rfl

/-! ## Claim C8: round barrier -/

theorem count_false_zero_all (l : List Bool) (h : l.count false = 0) :
    l.all (fun b => b) = true := by
  rw [List.all_eq_true]
  intro x hx
  cases x
  · exact absurd hx (List.count_eq_zero.mp h)
  · rfl

theorem reachable_cb_counter (n : ℕ) (s : RoundState) (hr : ReachableRound n s) :
    s.cbRan = true → wgCounter s = 0 := by
  induction hr with
  | init =>
    intro hcb
    simp [initRound] at hcb
  | step hr hstep ih =>
    rename_i s1 t1
    cases hstep with
    | probe i hi hpending =>
      intro hcb
      exfalso
      have h0 := ih hcb
      have hmem : false ∈ s1.done := hpending ▸ List.get_mem s1.done i hi
      exact (List.count_eq_zero.mp h0) hmem
    | callback hwait honce =>
      intro hcb
      exact hwait

/-- Claim C8: in every scheduler round of `Checks.Start`, the interval
callback runs only after every host in the round has completed its probe (the
WaitGroup join strictly precedes the callback, so the callback never observes
a partially completed round), and any host whose probe is still pending can
always complete it, regardless of the outcome of every other probe in the
round (one host failing never blocks the others). -/
theorem round_barrier (n : ℕ) (s : RoundState) (hr : ReachableRound n s) :
    (s.cbRan = true → s.done.all (fun b => b) = true) ∧
    (∀ i (hi : i < s.done.length), s.done.get ⟨i, hi⟩ = false →
      RoundStep s ⟨s.done.set i true, s.cbRan⟩) := by
  refine ⟨?_, ?_⟩
  · intro hcb
    exact count_false_zero_all _ (reachable_cb_counter n s hr hcb)
  · intro i hi hpending
    exact RoundStep.probe s i hi hpending

/-- Witness for C8: for a one-host round that ran its probe and then its
callback, the theorem reports every probe complete; on the fresh round the
pending probe step is enabled. -/
theorem round_barrier_witness :
    (RoundState.mk [true] true).done.all (fun b => b) = true ∧
    RoundStep ⟨[false], false⟩ ⟨[true], false⟩ := by
  have hstep1 : RoundStep ⟨[false], false⟩ ⟨[true], false⟩ :=
    (round_barrier 1 ⟨[false], false⟩ ReachableRound.init).2 0 (by decide) rfl
  have hstep2 : RoundStep ⟨[true], false⟩ ⟨[true], true⟩ :=
    RoundStep.callback _ (by decide) rfl
  have hreach : ReachableRound 1 ⟨[true], true⟩ :=
    ReachableRound.step (ReachableRound.step ReachableRound.init hstep1) hstep2
  exact ⟨(round_barrier 1 _ hreach).1 rfl, hstep1⟩

/-! ## Claim C9: no capacity validation at creation -/

/-- Counterexample for C9: with a well-formed URL and the invalid capacity
`maxStats = 0`, both `NewHost` and `NewChecksFromConfig` succeed instead of
returning an error; the resulting host is usable (a recorded sample lands in
its window). The claim that zero or negative capacities are rejected at
startup is false of the code. -/
theorem NewHost_accepts_zero_capacity :
    NewHost true 0 = some ⟨none, 0, 0, []⟩ ∧
    NewChecksFromConfig [true] 0 = some [⟨none, 0, 0, []⟩] ∧
    ((Host.mk none 0 0 []).AddTiming 250).stats = [250] := by
  refine ⟨rfl, rfl, ?_⟩
  decide

/-- Claim C9 as amended: creation validates only the URL. `NewHost` fails
exactly when URL parsing fails and otherwise returns a host that stores
`maxStats` unchecked, for every capacity including zero and negative values;
`NewChecksFromConfig` therefore fails only when some configured URL fails to
parse. -/
theorem NewHost_validates_only_url (maxStats : ℤ) :
    NewHost true maxStats = some ⟨none, 0, maxStats, []⟩ ∧
    NewHost false maxStats = none ∧
    NewChecksFromConfig [false] maxStats = none := by
  exact ⟨rfl, rfl, rfl⟩

/-! ## Claim C5: latency recording on failure -/

/-- Counterexample for C5: in the legacy `pingServer` loop (src/health.go), a
probe that fails with a transport error after 250ms does not record its
elapsed time: the stats window stays empty (only the error and the down state
are recorded). The claim that every probe outcome records its latency is
false of that code path. -/
theorem pingServer_failure_drops_sample :
    (pingServerOutcome ⟨true, none, [], false, 0⟩ 0 250000000 true 0).stats = [] ∧
    (pingServerOutcome ⟨true, none, [], false, 0⟩ 0 250000000 false 500).stats = [] := by
  exact ⟨rfl, rfl⟩

/-- Claim C5 as amended: in the `doPing` scheduler path (src/lib/checks.go)
every probe outcome, success or failure alike, appends its elapsed time to the
rolling window via `AddTiming`; in the legacy `pingServer` path
(src/health.go) the elapsed time is recorded only for a 200 response, and a
failed probe records nothing into the window. -/
theorem doPing_always_records (now : ℤ) (r : ProbeResult) (h : Host) (d : HostData)
    (elapsed : Duration) (statusCode : ℤ) :
    (doPing now r h).stats = recordStep h.maxStats h.stats r.elapsed ∧
    (pingServerOutcome d now elapsed true statusCode).stats = d.stats ∧
    (pingServerOutcome d now elapsed false statusCode).stats =
      (if statusCode = 200 then (pushStats d elapsed).stats else d.stats) := by
  refine ⟨?_, ?_, ?_⟩
  · unfold doPing Host.AddTiming
    cases hr : r.failed
    · simp only [Bool.false_eq_true, if_neg]
      rfl
    · simp only [if_pos]
      unfold Host.SetDown
      by_cases hd : h.downAt = none
      · rw [if_pos hd]
      · rw [if_neg hd]
  · rfl
  · unfold pingServerOutcome
    by_cases hs : statusCode = 200
    · rw [if_pos hs]
      simp only [if_neg (by simp : ¬ (false = true)), hs]
      simp [setStatus, pushStats]
    · rw [if_neg hs]
      simp only [if_neg (by simp : ¬ (false = true)), if_pos hs]
      simp [setStatus, pushError]

/-! ## Claim C6: status-code success band -/

/-- Claim C6 evaluated against the code: the intended success band is
`[200, 300)`, but `Host.Ping` classifies a clean HTTP response by
`StatusCode > http.StatusOK`: status 201 and 204 (inside the intended band)
are reported as errors, status 150 (outside the band) is reported as success,
and in the legacy `pingServer` path a 204 response is likewise treated as a
failure (only exactly 200 succeeds). -/
theorem Ping_success_band_mismatch :
    pingReturnsError false 201 = true ∧
    pingReturnsError false 204 = true ∧
    (200 ≤ (204 : ℤ) ∧ (204 : ℤ) < 300) ∧
    pingReturnsError false 150 = false ∧
    (pingServerOutcome ⟨true, none, [], false, 0⟩ 0 100 false 204).isUp = false := by
  refine ⟨rfl, rfl, by decide, rfl, rfl⟩

/-! ## Claim C7: mean of an empty window -/

/-- Claim C7 evaluated against the code: `DurationQueue.Mean` returns the zero
duration on an empty queue thanks to its nil-Head guard, but `Host.Mean` has
no such guard and divides by the window length, an integer division by zero on
an empty window (a Go runtime panic, modelled as `none`); on non-empty windows
both return the sum of the retained samples divided by their count. -/
theorem Mean_empty_window (stats : List Duration) (hne : stats ≠ []) :
    Host.Mean ⟨none, 0, 128, []⟩ = none ∧
    DurationQueue.Mean [] = 0 ∧
    meanOf stats = some (Int.tdiv stats.sum (stats.length : ℤ)) ∧
    DurationQueue.Mean stats = Int.tdiv stats.sum (stats.length : ℤ) := by
  refine ⟨rfl, rfl, ?_, ?_⟩
  · unfold meanOf
    rw [if_neg (Nat.pos_iff_ne_zero.mp (List.length_pos.mpr hne))]
  · unfold DurationQueue.Mean
    rw [if_neg hne]

/-- Witness for C7 at a concrete non-empty window: the mean of 2ns and 4ns is
3ns in both implementations, and the empty-window behaviors diverge. -/
theorem Mean_empty_window_witness :
    Host.Mean ⟨none, 0, 128, []⟩ = none ∧
    DurationQueue.Mean [] = 0 ∧
    meanOf [2, 4] = some (Int.tdiv ([2, 4] : List Duration).sum (([2, 4] : List Duration).length : ℤ)) ∧
    DurationQueue.Mean [2, 4] = Int.tdiv ([2, 4] : List Duration).sum (([2, 4] : List Duration).length : ℤ) :=
  Mean_empty_window [2, 4] (by decide)

/-! ## Claim C4: uptime fraction bounds -/

/-- Counterexample for C4: in the reachable state half a millisecond after
creation (total elapsed 500000ns) with 400000ns of downtime recorded
(0 ≤ downtime ≤ total elapsed), the displayed uptime fraction of
`Host.WriteStatus` is `float64(0-0)/float64(0) = 0.0/0.0` = NaN (modelled
`none`), which is not a number between 0.0 and 1.0, so the claimed bounds fail
for this reachable state. -/
theorem uptimePCT_nan_within_first_millisecond :
    (0 : ℤ) ≤ 400000 ∧ (400000 : ℤ) ≤ 500000 ∧
    uptimePCT 500000 400000 = none := by
  refine ⟨by decide, by decide, ?_⟩
  decide

/-- Claim C4 as amended: for every reachable host state (cumulative downtime
between zero and the total elapsed time), the displayed uptime fraction equals
exactly 1.0 whenever no downtime has been recorded, including at the moment of
creation; and whenever downtime has been recorded and at least one full
millisecond has elapsed since creation, the fraction is a well-defined number
between 0.0 and 1.0 inclusive. (Within the first millisecond of life a state
with positive downtime yields NaN instead.) -/
theorem uptimePCT_bounds (total down : ℤ) (h0 : 0 ≤ down) (h1 : down ≤ total) :
    (down ≤ 0 → uptimePCT total down = some 1) ∧
    (0 < down → 1000000 ≤ total →
      ∃ q : ℚ, uptimePCT total down = some q ∧ 0 ≤ q ∧ q ≤ 1) := by
  constructor
  · intro hdz
    unfold uptimePCT
    rw [if_neg (by omega : ¬ down > 0)]
  · intro hdp htot
    have htotnn : (0 : ℤ) ≤ total := by omega
    have hms : (0 : ℤ) ≤ 1000000 := by decide
    unfold uptimePCT msPerNs
    rw [if_pos (by omega : down > 0)]
    rw [Int.tdiv_eq_ediv htotnn hms, Int.tdiv_eq_ediv h0 hms]
    have htt1 : 1 ≤ total / 1000000 := by
      rw [Int.le_ediv_iff_mul_le (by norm_num)]
      omega
    have hdt0 : 0 ≤ down / 1000000 := Int.ediv_nonneg h0 hms
    have hdtle : down / 1000000 ≤ total / 1000000 :=
      Int.ediv_le_ediv (by norm_num) h1
    rw [if_neg (by omega : ¬ total / 1000000 = 0)]
    refine ⟨_, rfl, ?_, ?_⟩
    · apply div_nonneg
      · push_cast
        have : down / 1000000 ≤ total / 1000000 := hdtle
        exact_mod_cast sub_nonneg.mpr (by exact_mod_cast this)
      · exact_mod_cast (by omega : (0 : ℤ) ≤ total / 1000000)
    · rw [div_le_one (by exact_mod_cast (by omega : (0 : ℤ) < total / 1000000))]
      push_cast
      have : (0 : ℤ) ≤ down / 1000000 := hdt0
      exact_mod_cast (by omega : total / 1000000 - down / 1000000 ≤ total / 1000000)

/-- Witness for C4: two milliseconds after creation, no downtime gives exactly
1.0, and one millisecond of downtime gives a fraction inside [0, 1]. -/
theorem uptimePCT_bounds_witness :
    uptimePCT 2000000 0 = some 1 ∧
    (∃ q : ℚ, uptimePCT 2000000 1000000 = some q ∧ 0 ≤ q ∧ q ≤ 1) :=
  ⟨(uptimePCT_bounds 2000000 0 (by decide) (by decide)).1 (by decide),
   (uptimePCT_bounds 2000000 1000000 (by decide) (by decide)).2 (by decide) (by decide)⟩

/-! ## Percentile branch lemmas -/

theorem percentileOf_exact (stats : List Duration) (p : ℚ) (k : ℤ)
    (hidx : p / 100 * ((List.insertionSort (· ≤ ·) stats).length : ℚ) = (k : ℚ))
    (hk1 : 1 ≤ k) (a b : Duration)
    (ha : (List.insertionSort (· ≤ ·) stats).get? (k - 1).toNat = some a)
    (hb : (List.insertionSort (· ≤ ·) stats).get? k.toNat = some b) :
    percentileOf stats p = some (AverageDuration [a, b]) := by
  simp only [percentileOf]
  rw [hidx, truncToInt_intCast, if_pos rfl, RoundToInt_intCast,
    if_neg (not_lt.mpr hk1), ha, hb]

theorem percentileOf_inexact (stats : List Duration) (p : ℚ)
    (hnot : ∀ k : ℤ, p / 100 * ((List.insertionSort (· ≤ ·) stats).length : ℚ) ≠ (k : ℚ))
    (hi1 : 1 ≤ RoundToInt (p / 100 * ((List.insertionSort (· ≤ ·) stats).length : ℚ)))
    (a : Duration)
    (ha : (List.insertionSort (· ≤ ·) stats).get?
        (RoundToInt (p / 100 * ((List.insertionSort (· ≤ ·) stats).length : ℚ)) - 1).toNat =
      some a) :
    percentileOf stats p = some a := by
  simp only [percentileOf]
  rw [if_neg (hnot _), if_neg (not_lt.mpr hi1), ha]

theorem percentileOf_low (stats : List Duration) (p : ℚ)
    (hlow : RoundToInt (p / 100 * ((List.insertionSort (· ≤ ·) stats).length : ℚ)) < 1) :
    percentileOf stats p = some 0 := by
  simp only [percentileOf]
  by_cases hexact :
      p / 100 * ((List.insertionSort (· ≤ ·) stats).length : ℚ) =
        ((truncToInt (p / 100 * ((List.insertionSort (· ≤ ·) stats).length : ℚ)) : ℤ) : ℚ)
  · rw [if_pos hexact, if_pos hlow]
  · rw [if_neg hexact, if_pos hlow]

theorem dqPercentile_exact (dq : List Duration) (p : ℚ) (k : ℤ) (hne : dq ≠ [])
    (hidx : p / 100 * ((List.insertionSort (· ≤ ·) dq).length : ℚ) = (k : ℚ))
    (hk1 : 1 ≤ k) (a b : Duration)
    (ha : (List.insertionSort (· ≤ ·) dq).get? (k - 1).toNat = some a)
    (hb : (List.insertionSort (· ≤ ·) dq).get? k.toNat = some b) :
    DurationQueue.Percentile dq p = some (truncToInt (meanFloat [(a : ℚ), (b : ℚ)])) := by
  simp only [DurationQueue.Percentile]
  rw [if_neg hne, hidx, truncToInt_intCast, if_pos rfl, RoundToInt_intCast,
    if_neg (not_lt.mpr hk1), ha, hb]

theorem dqPercentile_inexact (dq : List Duration) (p : ℚ) (hne : dq ≠ [])
    (hnot : ∀ k : ℤ, p / 100 * ((List.insertionSort (· ≤ ·) dq).length : ℚ) ≠ (k : ℚ))
    (hi1 : 1 ≤ RoundToInt (p / 100 * ((List.insertionSort (· ≤ ·) dq).length : ℚ)))
    (a : Duration)
    (ha : (List.insertionSort (· ≤ ·) dq).get?
        (RoundToInt (p / 100 * ((List.insertionSort (· ≤ ·) dq).length : ℚ)) - 1).toNat =
      some a) :
    DurationQueue.Percentile dq p = some a := by
  simp only [DurationQueue.Percentile]
  rw [if_neg hne, if_neg (hnot _), if_neg (not_lt.mpr hi1), ha]

theorem percentileOf_100 (stats : List Duration) (hne : stats ≠ []) :
    percentileOf stats 100 = none := by
  have hlen : (List.insertionSort (· ≤ ·) stats).length = stats.length :=
    List.length_insertionSort _ _
  have hpos : 1 ≤ stats.length := List.length_pos.mpr hne
  have hidx : (100 : ℚ) / 100 * ((List.insertionSort (· ≤ ·) stats).length : ℚ) =
      ((stats.length : ℤ) : ℚ) := by
    rw [hlen]
    push_cast
    ring
  simp only [percentileOf]
  rw [hidx, truncToInt_intCast, if_pos rfl, RoundToInt_intCast,
    if_neg (not_lt.mpr (by exact_mod_cast hpos))]
  have hb : (List.insertionSort (· ≤ ·) stats).get? (stats.length : ℤ).toNat = none := by
    rw [List.get?_eq_none]
    rw [hlen]
    omega
  rw [hb]
  rcases hv : (List.insertionSort (· ≤ ·) stats).get? ((stats.length : ℤ) - 1).toNat with _ | a
  · rfl
  · rfl

theorem dqPercentile_100 (dq : List Duration) (hne : dq ≠ []) :
    DurationQueue.Percentile dq 100 = none := by
  have hlen : (List.insertionSort (· ≤ ·) dq).length = dq.length :=
    List.length_insertionSort _ _
  have hpos : 1 ≤ dq.length := List.length_pos.mpr hne
  have hidx : (100 : ℚ) / 100 * ((List.insertionSort (· ≤ ·) dq).length : ℚ) =
      ((dq.length : ℤ) : ℚ) := by
    rw [hlen]
    push_cast
    ring
  simp only [DurationQueue.Percentile]
  rw [if_neg hne, hidx, truncToInt_intCast, if_pos rfl, RoundToInt_intCast,
    if_neg (not_lt.mpr (by exact_mod_cast hpos))]
  have hb : (List.insertionSort (· ≤ ·) dq).get? (dq.length : ℤ).toNat = none := by
    rw [List.get?_eq_none]
    rw [hlen]
    omega
  rw [hb]
  rcases hv : (List.insertionSort (· ≤ ·) dq).get? ((dq.length : ℤ) - 1).toNat with _ | a
  · rfl
  · rfl

/-! ## Claim C1: percentile semantics -/

/-- Claim C1: for every non-empty rolling window and percentile `p` in
[0, 100], `Percentile` sorts a copy of the retained samples ascending and
computes `idx = (p/100)*n`. If `idx` is an exact integer `k` with `1 ≤ k` (and
`values[k]` exists, i.e. `k < n`), the result is the average of `values[k-1]`
and `values[k]` (midpoint interpolation at the boundary). If `idx` is not an
exact integer, the result is `values[i-1]` where `i = ⌊idx + 1/2⌋` is `idx`
rounded half-up (ties away from zero, `idx` being nonnegative). If the index
rounds below 1, the result is the zero duration. On samples
[1s, 2s, 3s, 4s, 5s], `Percentile 80` is 4.5s and `Percentile 50` is 3s, in
the Host implementation and the legacy DurationQueue implementation alike. -/
theorem Percentile_spec (stats : List Duration) (p : ℚ)
    (hne : stats ≠ []) (hp0 : 0 ≤ p) (hp1 : p ≤ 100) :
    (∀ k : ℤ, p / 100 * (stats.length : ℚ) = (k : ℚ) → 1 ≤ k →
      ∀ a b : Duration,
        (List.insertionSort (· ≤ ·) stats).get? (k - 1).toNat = some a →
        (List.insertionSort (· ≤ ·) stats).get? k.toNat = some b →
        percentileOf stats p = some (AverageDuration [a, b])) ∧
    ((∀ k : ℤ, p / 100 * (stats.length : ℚ) ≠ (k : ℚ)) →
      1 ≤ ⌊p / 100 * (stats.length : ℚ) + 1/2⌋ →
      ∀ a : Duration,
        (List.insertionSort (· ≤ ·) stats).get?
            (⌊p / 100 * (stats.length : ℚ) + 1/2⌋ - 1).toNat = some a →
        percentileOf stats p = some a) ∧
    (⌊p / 100 * (stats.length : ℚ) + 1/2⌋ < 1 → percentileOf stats p = some 0) ∧
    percentileOf [1000000000, 2000000000, 3000000000, 4000000000, 5000000000] 80 =
      some 4500000000 ∧
    percentileOf [1000000000, 2000000000, 3000000000, 4000000000, 5000000000] 50 =
      some 3000000000 ∧
    DurationQueue.Percentile [1000000000, 2000000000, 3000000000, 4000000000, 5000000000] 80 =
      some 4500000000 ∧
    DurationQueue.Percentile [1000000000, 2000000000, 3000000000, 4000000000, 5000000000] 50 =
      some 3000000000 := by
  have hlen : (List.insertionSort (· ≤ ·) stats).length = stats.length :=
    List.length_insertionSort _ _
  have hnn : 0 ≤ p / 100 * (stats.length : ℚ) :=
    mul_nonneg (div_nonneg hp0 (by norm_num)) (Nat.cast_nonneg _)
  have hlen5 : ((List.insertionSort (· ≤ ·)
      ([1000000000, 2000000000, 3000000000, 4000000000, 5000000000] : List Duration)).length : ℚ) =
      (5 : ℚ) := by decide
  have harg80 : (80 : ℚ) / 100 * ((List.insertionSort (· ≤ ·)
      ([1000000000, 2000000000, 3000000000, 4000000000, 5000000000] : List Duration)).length : ℚ) =
      ((4 : ℤ) : ℚ) := by
    rw [hlen5]
    norm_num
  have harg50 : (50 : ℚ) / 100 * ((List.insertionSort (· ≤ ·)
      ([1000000000, 2000000000, 3000000000, 4000000000, 5000000000] : List Duration)).length : ℚ) =
      5 / 2 := by
    rw [hlen5]
    norm_num
  have hnot50 : ∀ k : ℤ, (50 : ℚ) / 100 * ((List.insertionSort (· ≤ ·)
      ([1000000000, 2000000000, 3000000000, 4000000000, 5000000000] : List Duration)).length : ℚ) ≠
      (k : ℚ) := by
    intro k hk
    rw [harg50] at hk
    have h2 : (2 * k : ℚ) = 5 := by linarith
    have h3 : (2 * k : ℤ) = 5 := by exact_mod_cast h2
    omega
  have hR50 : RoundToInt ((50 : ℚ) / 100 * ((List.insertionSort (· ≤ ·)
      ([1000000000, 2000000000, 3000000000, 4000000000, 5000000000] : List Duration)).length : ℚ)) =
      3 := by
    rw [harg50, RoundToInt_nonneg _ (by norm_num)]
    rw [show (5 / 2 + 1 / 2 : ℚ) = ((3 : ℤ) : ℚ) by norm_num, Int.floor_intCast]
  refine ⟨?_, ?_, ?_, ?_, ?_, ?_, ?_⟩
  · intro k hk hk1 a b ha hb
    refine percentileOf_exact stats p k ?_ hk1 a b ha hb
    rw [hlen]
    exact hk
  · intro hnot hi1 a ha
    have hR : RoundToInt (p / 100 * ((List.insertionSort (· ≤ ·) stats).length : ℚ)) =
        ⌊p / 100 * (stats.length : ℚ) + 1/2⌋ := by
      rw [hlen, RoundToInt_nonneg _ hnn]
    refine percentileOf_inexact stats p ?_ ?_ a ?_
    · intro k
      rw [hlen]
      exact hnot k
    · rw [hR]
      exact hi1
    · rw [hR]
      exact ha
  · intro hlow
    refine percentileOf_low stats p ?_
    rw [hlen, RoundToInt_nonneg _ hnn]
    exact hlow
  · have h := percentileOf_exact
      [1000000000, 2000000000, 3000000000, 4000000000, 5000000000] 80 4 harg80
      (by decide) 4000000000 5000000000 (by decide) (by decide)
    rw [h]
    decide
  · have h := percentileOf_inexact
      [1000000000, 2000000000, 3000000000, 4000000000, 5000000000] 50 hnot50
      (by rw [hR50]; decide) 3000000000 (by rw [hR50]; decide)
    exact h
  · have h := dqPercentile_exact
      [1000000000, 2000000000, 3000000000, 4000000000, 5000000000] 80 4 (by decide) harg80
      (by decide) 4000000000 5000000000 (by decide) (by decide)
    rw [h]
    have hm : meanFloat [((4000000000 : ℤ) : ℚ), ((5000000000 : ℤ) : ℚ)] =
        ((4500000000 : ℤ) : ℚ) := by
      unfold meanFloat
      push_cast
      norm_num
    rw [hm, truncToInt_intCast]
  · exact dqPercentile_inexact
      [1000000000, 2000000000, 3000000000, 4000000000, 5000000000] 50 (by decide) hnot50
      (by rw [hR50]; decide) 3000000000 (by rw [hR50]; decide)

/-- Witness for C1 on the spec example [1s,2s,3s,4s,5s]: the 80th percentile
is 4.5s under midpoint interpolation and the 50th percentile is 3s under
half-up rounding. -/
theorem Percentile_spec_witness :
    percentileOf [1000000000, 2000000000, 3000000000, 4000000000, 5000000000] 80 =
      some 4500000000 ∧
    percentileOf [1000000000, 2000000000, 3000000000, 4000000000, 5000000000] 50 =
      some 3000000000 := by
  have h := Percentile_spec [1000000000, 2000000000, 3000000000, 4000000000, 5000000000] 80
    (by decide) (by decide) (by decide)
  exact ⟨h.2.2.2.1, h.2.2.2.2.1⟩

/-! ## Claim C10: Percentile at p = 100 -/

/-- Claim C10 evaluated against the code: `Percentile` is not total on
non-empty windows. At `p = 100` the index `(100/100)*n = n` is an exact
integer, the exact-integer branch rounds `i = n ≥ 1`, and the code then reads
`values[i]` = `values[n]`, one element past the end of the sorted sample
array: an index-out-of-range panic (modelled `none`) in both the Host and the
legacy DurationQueue implementations, for every non-empty window. -/
theorem Percentile_100_panics (stats : List Duration) (hne : stats ≠ []) :
    percentileOf stats 100 = none ∧ DurationQueue.Percentile stats 100 = none :=
  ⟨percentileOf_100 stats hne, dqPercentile_100 stats hne⟩

/-- Witness for C10: on the one-sample window [1s], `Percentile 100` reads
past the end instead of returning a result. -/
theorem Percentile_100_panics_witness :
    percentileOf [1000000000] 100 = none ∧
    DurationQueue.Percentile [1000000000] 100 = none :=
  Percentile_100_panics [1000000000] (by decide)
